import Mathlib

/-!
Verification of the poolside-backend chat service, chat routes, GitHub commit
handler and Stripe subscription webhook, as a shallow embedding in Lean 4.

Sources embedded here:
  - src/src/services/claude.ts  (model table, client selection, FILE_TOOLS,
    parseFileChanges, content cleaning of chat / streamChat / chatWithTools /
    streamChatWithTools)
  - src/src/routes/chat.ts      (isValidModel, executeToolCall, the
    POST /api/chat/with-tools tool loop, Promise.all over tool calls)
  - src/api/index.js            (POST /api/github/commit Git Data sequence)
  - the Stripe subscription webhook handler
    (POST /webhooks/stripe/subscription)

Strings are modelled as `List Char` where proofs need structural induction
(marker search and removal) and as `String` elsewhere.  External effects
(Anthropic responses, storage HTTP fetches, GitHub API responses, JSON.parse)
are oracle parameters; handlers return their HTTP-level result together with
the trace of external calls they make, in order.
-/

set_option autoImplicit false

namespace Poolside

/-! ### Generic string-search utilities (the semantics of the JS regexes) -/

/-- Anchored-match test: `leadsWith pat s` is true when `pat` is an initial
segment of `s` (the marker search below is built from it). -/
def leadsWith : List Char → List Char → Bool
  | [], _ => true
  | _ :: _, [] => false
  | p :: ps, c :: cs => p == c && leadsWith ps cs

/-- Split `s` at the first occurrence of `pat`: `some (a, b)` with
`s = a ++ pat ++ b` and `a` shortest possible, `none` when `pat` does not
occur in `s`.  This is how a JS regex engine locates the leftmost match of a
literal. -/
def splitFirst (pat : List Char) : List Char → Option (List Char × List Char)
  | [] => if pat = [] then some ([], []) else none
  | c :: cs =>
    if leadsWith pat (c :: cs) then some ([], (c :: cs).drop pat.length)
    else match splitFirst pat cs with
      | none => none
      | some (a, b) => some (c :: a, b)

/-! ### The file-change markers of claude.ts -/

/-- The literal `---FILE_CHANGES_START---` used by the claude.ts regexes. -/
def SM : List Char := "---FILE_CHANGES_START---".data

/-- The literal `---FILE_CHANGES_END---` used by the claude.ts regexes. -/
def EM : List Char := "---FILE_CHANGES_END---".data

/-- JS `String.prototype.trim` on the character list (claude.ts calls
`.trim()` on the regex group and on the cleaned content). -/
def trimChars (s : List Char) : List Char :=
  ((s.dropWhile Char.isWhitespace).reverse.dropWhile Char.isWhitespace).reverse

/-! ### The global replace of claude.ts removing every delimited block

A JS global replace repeatedly finds the leftmost match (start marker, then
lazily up to the first end marker after it) and resumes scanning after the
removed region.  `removeBlocksF` mirrors that iteration; the fuel argument
only bounds the number of removed blocks, and since every removed block is at
least 46 characters long, fuel `s.length` can never be exhausted before the
scan finds no further match. -/

def removeBlocksF : Nat → List Char → List Char
  | 0, s => s
  | fuel + 1, s =>
    match splitFirst SM s with
    | none => s
    | some (a, rest) =>
      match splitFirst EM rest with
      | none => s
      | some (_, post) => a ++ removeBlocksF fuel post

/-- The cleaned text: all delimited blocks removed, leftmost first. -/
def removeBlocks (s : List Char) : List Char := removeBlocksF s.length s

/-- Shared tail of chat / streamChat / chatWithTools / streamChatWithTools in
claude.ts: strip every delimited block, then trim. -/
def cleanContent (s : List Char) : List Char := trimChars (removeBlocks s)

/-! ### parseFileChanges (claude.ts lines 230-243)

`JSON.parse` is an external builtin, so it enters as an oracle
`jsonParse : List Char → Option (Option (List FileChange))`: outer `none`
models `JSON.parse` throwing (caught, yielding `[]`), `some none` models a
parsed value whose `changes` field is absent or falsy, and `some (some cs)`
models `json.changes` being the array `cs`. -/

structure FileChange where
  path : String
  action : String
  content : Option String
deriving Repr, DecidableEq

def parseFileChanges (jsonParse : List Char → Option (Option (List FileChange)))
    (content : List Char) : List FileChange :=
  match splitFirst SM content with
  | none => []
  | some (_, rest) =>
    match splitFirst EM rest with
    | none => []
    | some (mid, _) =>
      match jsonParse (trimChars mid) with
      | none => []
      | some none => []
      | some (some cs) => cs

/-- A string contains a complete delimited file-change block. -/
def hasBlock (s : List Char) : Bool :=
  match splitFirst SM s with
  | none => false
  | some (_, rest) => (splitFirst EM rest).isSome

/-! ### Decomposition characterization of the global replace -/

/-- Relation `RemovalDecomp s c`: `c` is obtained from `s` by removing complete
delimited blocks, scanning left to right: either `s` holds no complete block
and is kept whole, or `s` splits as `a ++ SM ++ m ++ EM ++ post` where `a`
contains no start marker (leftmost match), `m` contains no end marker (lazy
match), the block is dropped and `a` is kept in front of the cleaned `post`. -/
inductive RemovalDecomp : List Char → List Char → Prop
  | noBlock {s : List Char} (h : ∀ x m y, s ≠ x ++ SM ++ m ++ EM ++ y) :
      RemovalDecomp s s
  | step {a m post c : List Char}
      (ha : ∀ x y, a ≠ x ++ SM ++ y)
      (hm : ∀ x y, m ≠ x ++ EM ++ y)
      (hrec : RemovalDecomp post c) :
      RemovalDecomp (a ++ SM ++ m ++ EM ++ post) (a ++ c)

/-! ### Model output shapes and the four content-returning functions -/

/-- An Anthropic response content block (text or tool_use), as consumed by
`extractTextContent` / `extractToolCalls` in claude.ts. -/
inductive ContentBlock
  | text (t : List Char)
  | toolUse (id name : String)
deriving Repr

/-- Text used by claude.ts `chat`: the first content block when it is a text
block, the empty string otherwise. -/
def firstTextBlock (blocks : List ContentBlock) : List Char :=
  match blocks.head? with
  | some (ContentBlock.text t) => t
  | _ => []

/-- claude.ts `extractTextContent`: concatenate the text of every text block. -/
def extractTextContent (blocks : List ContentBlock) : List Char :=
  (blocks.filterMap fun b => match b with
    | ContentBlock.text t => some t
    | _ => none).flatten

/-- The `content` field of `chat` (claude.ts lines 219-227). -/
def chatContent (blocks : List ContentBlock) : List Char :=
  cleanContent (firstTextBlock blocks)

/-- The `content` field of `streamChat` (claude.ts lines 184-192): the
accumulated text deltas, cleaned. -/
def streamChatContent (textDeltas : List (List Char)) : List Char :=
  cleanContent textDeltas.flatten

/-- The `content` field of `chatWithTools` (claude.ts lines 305-315). -/
def chatWithToolsContent (blocks : List ContentBlock) : List Char :=
  cleanContent (extractTextContent blocks)

/-- The `content` field of `streamChatWithTools` (claude.ts lines 402-405). -/
def streamChatWithToolsContent (textDeltas : List (List Char)) : List Char :=
  cleanContent textDeltas.flatten

/-- A model output on which the cleaned content still contains a complete
delimited block: removal of the inner block concatenates the fragment
`---FILE_CHANGES_ST` with the fragment `ART---Y---FILE_CHANGES_END---`. -/
def badOutput : List Char :=
  "---FILE_CHANGES_ST".data ++ SM ++ "X".data ++ EM ++ "ART---Y".data ++ EM

/-! ### Claim C4: parseFileChanges -/

/-! ### Claim C5: the cleaned content -/

/-! ### Tool calls, tool results (claude.ts interfaces) -/

/-- The fields the chat.ts handlers project out of a tool call input
(`toolCall.input as { path: string }` etc.). -/
structure ToolInput where
  path : String
  paths : List String
  query : String
deriving Repr, DecidableEq

structure ToolCall where
  id : String
  name : String
  input : ToolInput
deriving Repr, DecidableEq

structure ToolResult where
  toolCallId : String
  result : String
  isError : Bool
deriving Repr, DecidableEq

/-! ### The POST /api/chat/with-tools agentic loop (chat.ts lines 355-471)

One model call is an oracle value: the `ChatResponse` the iteration receives
from `streamChatWithTools` / `chatWithTools`.  `resp i` is the response of
the i-th model call (1-based, matching the `iterations` counter). -/

structure LoopStepResult where
  content : String
  fileChanges : List FileChange
  toolCalls : List ToolCall
  stopReason : Option String

/-- Loop-continuation test of chat.ts lines 389 and 442: the stop reason is
tool_use and the tool-call list is nonempty (`chatWithTools` returns an
undefined list exactly when it is empty, so the middle conjunct of the
source collapses into the length test). -/
def wantsTools (r : LoopStepResult) : Bool :=
  r.stopReason == some "tool_use" && !r.toolCalls.isEmpty

def MAX_TOOL_ITERATIONS : Nat := 10

structure LoopOutput where
  content : String
  fileChanges : List FileChange
  iterations : Nat
deriving Repr, DecidableEq

/-- The while-loop of both branches: fuel is the remaining permitted
iterations (`MAX_TOOL_ITERATIONS - iterations`); each pass increments the
counter, records the latest content, appends the file changes (appending an
empty list equals the guarded append of the source) and continues only when
the response wants tools. -/
def toolLoopAux (resp : Nat → LoopStepResult) :
    Nat → Nat → String → List FileChange → LoopOutput
  | 0, iterations, content, fcs => ⟨content, fcs, iterations⟩
  | fuel + 1, iterations, _, fcs =>
    let i := iterations + 1
    let r := resp i
    let fcs2 := fcs ++ r.fileChanges
    if wantsTools r then toolLoopAux resp fuel i r.content fcs2
    else ⟨r.content, fcs2, i⟩

/-- The streaming branch of POST /api/chat/with-tools (chat.ts 361-424). -/
def streamWithToolsLoop (resp : Nat → LoopStepResult) : LoopOutput :=
  toolLoopAux resp MAX_TOOL_ITERATIONS 0 "" []

/-- The non-streaming branch of POST /api/chat/with-tools (chat.ts 425-472). -/
def chatWithToolsLoop (resp : Nat → LoopStepResult) : LoopOutput :=
  toolLoopAux resp MAX_TOOL_ITERATIONS 0 "" []

/-- Body of the HTTP response sent after the loop: the `complete` stream
event (chat.ts 418-423) and the JSON body (chat.ts 467-471) both carry
`content`, `fileChanges` and `iterations`. -/
structure WithToolsResponseBody where
  content : String
  fileChanges : List FileChange
  iterations : Nat
deriving Repr, DecidableEq

def withToolsStreamResponse (resp : Nat → LoopStepResult) : WithToolsResponseBody :=
  let o := streamWithToolsLoop resp
  ⟨o.content, o.fileChanges, o.iterations⟩

def withToolsJsonResponse (resp : Nat → LoopStepResult) : WithToolsResponseBody :=
  let o := chatWithToolsLoop resp
  ⟨o.content, o.fileChanges, o.iterations⟩

/-- A concrete response stream: the first model call wants tools, the second
stops. -/
def c1WitnessResp : Nat → LoopStepResult := fun n =>
  if n = 1 then
    { content := "looking", fileChanges := [],
      toolCalls := [⟨"t1", "read_file", ⟨"a.ts", [], ""⟩⟩],
      stopReason := some "tool_use" }
  else
    { content := "done", fileChanges := [], toolCalls := [],
      stopReason := some "end_turn" }

/-! ### Claim C7: storage HTTP requests within one loop iteration

chat.ts lines 391-395 and 444-448 run
`toolResults = await Promise.all(result.toolCalls.map(tc => executeToolCall(...)))`.
Calling the async `executeToolCall` for each element of the map runs it
synchronously up to its first await, which issues its storage HTTP request;
only then is the next element's call started, and `Promise.all` awaits all
completions afterwards.  So the event trace of one iteration is: every
request issued, then the completions. -/

inductive HttpEvent
  | issue (id : String)
  | complete (id : String)
deriving Repr, DecidableEq

/-- Trace of one loop iteration's tool execution as the code performs it. -/
def promiseAllToolTrace (toolCalls : List ToolCall) : List HttpEvent :=
  toolCalls.map (fun tc => HttpEvent.issue tc.id) ++
    toolCalls.map (fun tc => HttpEvent.complete tc.id)

/-- Trace of the strictly sequential execution the spec describes
("awaiting one HTTP call at a time"): issue, await, issue, await, ... -/
def sequentialToolTrace (toolCalls : List ToolCall) : List HttpEvent :=
  toolCalls.flatMap (fun tc => [HttpEvent.issue tc.id, HttpEvent.complete tc.id])

def isIssue : HttpEvent → Bool
  | HttpEvent.issue _ => true
  | HttpEvent.complete _ => false

def isComplete : HttpEvent → Bool
  | HttpEvent.issue _ => false
  | HttpEvent.complete _ => true

/-- Number of requests in flight after the first `k` events of a trace. -/
def inFlightAt (tr : List HttpEvent) (k : Nat) : Nat :=
  (tr.take k).countP isIssue - (tr.take k).countP isComplete

/-! ### Claim C10: model validation in the chat routes (chat.ts) -/

/-- chat.ts lines 45-47. -/
def isValidModel (m : String) : Bool :=
  m == "haiku" || m == "sonnet" || m == "opus"

/-- Model fallback of chat.ts lines 61, 342 and 537: keep the model only
when present, truthy and valid, else use sonnet (`none` models an absent
field; the empty string is falsy in JS). -/
def validModel (model : Option String) : String :=
  match model with
  | some s => if s ≠ "" && isValidModel s then s else "sonnet"
  | none => "sonnet"

/-- Model resolution of POST /api/chat (chat.ts line 61). -/
def chatRouteModel (model : Option String) : String := validModel model

/-- Model resolution of POST /api/chat/with-tools (chat.ts line 342). -/
def withToolsRouteModel (model : Option String) : String := validModel model

/-- Model resolution of POST /api/chat/generate-context (chat.ts line 537). -/
def generateContextRouteModel (model : Option String) : String := validModel model

/-- The early 400 rejection of POST /api/chat (chat.ts 55-58): only a missing
messages array is rejected; the model value plays no part. -/
def chatRouteReject (messagesPresent : Bool) (_model : Option String) : Option Nat :=
  if !messagesPresent then some 400 else none

/-- The early 400 rejections of POST /api/chat/with-tools (chat.ts 300-308). -/
def withToolsRouteReject (messagesPresent toolsEnabled storageTokenPresent : Bool)
    (_model : Option String) : Option Nat :=
  if !messagesPresent then some 400
  else if toolsEnabled && !storageTokenPresent then some 400
  else none

/-- The early 400 rejection of POST /api/chat/generate-context (chat.ts 532-535). -/
def generateContextRouteReject (projectNamePresent : Bool)
    (_model : Option String) : Option Nat :=
  if !projectNamePresent then some 400 else none

/-! ### Claim C9: BYOK key selection (claude.ts lines 21-28 and each function) -/

/-- Key used by `createClient(apiKey)`: the Anthropic client is built with
`apiKey || process.env.ANTHROPIC_API_KEY`. -/
def createClientKey (apiKey : Option String) (envKey : String) : String :=
  match apiKey with
  | some k => if k ≠ "" then k else envKey
  | none => envKey

/-- Key of the shared `defaultClient = createClient()`. -/
def defaultClientKey (envKey : String) : String := createClientKey none envKey

/-- The selection `apiKey ? createClient(apiKey) : defaultClient` performed
identically by every chat-service function. -/
def selectedClientKey (optionsApiKey : Option String) (envKey : String) : String :=
  match optionsApiKey with
  | some k =>
    if k ≠ "" then createClientKey (some k) envKey else defaultClientKey envKey
  | none => defaultClientKey envKey

def chatClientKey : Option String → String → String := selectedClientKey

def streamChatClientKey : Option String → String → String := selectedClientKey

def chatWithToolsClientKey : Option String → String → String := selectedClientKey

def streamChatWithToolsClientKey : Option String → String → String := selectedClientKey

def analyzeProjectClientKey : Option String → String → String := selectedClientKey

def generateContextFileClientKey : Option String → String → String := selectedClientKey

/-- The unanchored left-to-right match of the literal pieces of a glob
pattern (the regex `p1.*p2.*...` built by search_files, tested anywhere in
the name). -/
def piecesInOrder : List (List Char) → List Char → Bool
  | [], _ => true
  | p :: ps, s =>
    match splitFirst p s with
    | none => false
    | some (_, rest) => piecesInOrder ps rest

/-! ### FILE_TOOLS (claude.ts lines 71-115) and executeToolCall (chat.ts 153-281) -/

/-- One entry of the tool list offered to the model: its name and the
required fields of its input schema. -/
structure ToolSpec where
  name : String
  required : List String
deriving Repr, DecidableEq

/-- The tool list `FILE_TOOLS` passed as `tools:` to the model. -/
def FILE_TOOLS : List ToolSpec :=
  [ { name := "read_file", required := ["path"] },
    { name := "read_multiple_files", required := ["paths"] },
    { name := "search_files", required := ["query"] } ]

/-- The tool names the switch in executeToolCall handles. -/
def HANDLED_TOOL_NAMES : List String :=
  ["read_file", "read_multiple_files", "search_files"]

inductive StorageType
  | onedrive
  | github
deriving Repr, DecidableEq

structure GithubRef where
  owner : String
  repo : String
  branch : String
deriving Repr, DecidableEq

/-- The storage backend as an oracle: `fetchFile` is the outcome of the HTTP
fetch for a resolved path (`Except.error` models the fetch throwing);
`listFiles` is the outcome of `listAllFiles` for OneDrive. -/
structure Storage where
  fetchFile : String → Except String String
  listFiles : Except String (List String)

/-- chat.ts 176-180: OneDrive combines the project path with the file path. -/
def resolveOneDrivePath (projectPath path : String) : String :=
  if projectPath = "/" then "/" ++ path else projectPath ++ "/" ++ path

/-- Per-path fetch of read_file / read_multiple_files: GitHub when the
storage type is github and a github ref is present, OneDrive otherwise. -/
def readProjectFile (st : Storage) (storageType : StorageType)
    (projectPath : String) (github : Option GithubRef) (path : String) :
    Except String String :=
  match storageType, github with
  | StorageType.github, some _ => st.fetchFile path
  | _, _ => st.fetchFile (resolveOneDrivePath projectPath path)

/-- The entry read_multiple_files produces for one path: the file content or,
when the per-path fetch throws, a fixed error line for that file only. -/
def readEntry (st : Storage) (storageType : StorageType) (projectPath : String)
    (github : Option GithubRef) (p : String) : String :=
  match readProjectFile st storageType projectPath github p with
  | Except.ok content => "=== File: " ++ p ++ " ===\n" ++ content
  | Except.error _ => "=== File: " ++ p ++ " ===\nError: Could not read file"

def lowerStr (s : String) : String := String.mk (s.data.map Char.toLower)

/-- The result of the default switch case (chat.ts 267-272). -/
def unknownToolResult (tc : ToolCall) : ToolResult :=
  { toolCallId := tc.id, result := "Unknown tool: " ++ tc.name, isError := true }

/-- executeToolCall (chat.ts 153-281).  The try/catch around the switch is an
`Except`: any thrown error is caught and stringified into an error result.
search_files mirrors the source: lowercase the query, glob patterns (those
containing a star) are split on the star and their literal pieces must occur
left to right in the lowercased name (the unanchored `.*` regex the code
builds), other queries are substring tests; a glob query whose other regex
metacharacters would make `new RegExp` throw is not modelled. -/
def executeToolCallAttempt (tc : ToolCall) (storageType : StorageType)
    (projectPath : String) (github : Option GithubRef)
    (fileList : Option (List String)) (st : Storage) :
    Except String ToolResult :=
    if tc.name = "read_file" then
      match readProjectFile st storageType projectPath github tc.input.path with
      | Except.error e => Except.error e
      | Except.ok content => Except.ok
          { toolCallId := tc.id
            result := "File: " ++ tc.input.path ++ "\n\n" ++ content
            isError := false }
    else if tc.name = "read_multiple_files" then
      Except.ok
        { toolCallId := tc.id
          result := String.intercalate "\n\n"
            (tc.input.paths.map (readEntry st storageType projectPath github))
          isError := false }
    else if tc.name = "search_files" then
      let files0 := fileList.getD []
      let filesE : Except String (List String) :=
        if fileList = none ∨ files0 = [] then
          match storageType with
          | StorageType.onedrive => st.listFiles
          | StorageType.github => Except.ok files0
        else Except.ok files0
      match filesE with
      | Except.error e => Except.error e
      | Except.ok files =>
        let pattern := lowerStr tc.input.query
        let found := if pattern.data.contains '*' then
            files.filter fun f =>
              piecesInOrder (pattern.data.splitOn '*') (lowerStr f).data
          else
            files.filter fun f => (splitFirst pattern.data (lowerStr f).data).isSome
        if found = [] then
          Except.ok
            { toolCallId := tc.id
              result := "No files found matching \"" ++ tc.input.query ++ "\""
              isError := false }
        else
          Except.ok
            { toolCallId := tc.id
              result := "Found " ++ toString found.length ++ " file(s) matching \"" ++
                tc.input.query ++ "\":\n" ++
                String.intercalate "\n" (found.take 50) ++
                (if found.length > 50 then
                  "\n... and " ++ toString (found.length - 50) ++ " more"
                else "")
              isError := false }
    else Except.ok (unknownToolResult tc)

/-- The catch clause of executeToolCall (chat.ts 274-280). -/
def catchToolError (tc : ToolCall) : Except String ToolResult → ToolResult
  | Except.ok r => r
  | Except.error e =>
    { toolCallId := tc.id
      result := "Error executing " ++ tc.name ++ ": " ++ e
      isError := true }

def executeToolCall (tc : ToolCall) (storageType : StorageType)
    (projectPath : String) (github : Option GithubRef)
    (fileList : Option (List String)) (st : Storage) : ToolResult :=
  catchToolError tc
    (executeToolCallAttempt tc storageType projectPath github fileList st)

/-- Storage oracle for the C6 witness: fetching `/b.ts` throws, every other
path succeeds. -/
def c6Storage : Storage :=
  ⟨fun p => if p = "/b.ts" then Except.error "boom" else Except.ok "data",
   Except.ok []⟩

/-! ### POST /api/github/commit (api/index.js lines 853-989)

The handler is a straight-line sequence of fetches against GitHub's Git Data
API.  Each external response enters through the oracle `GhOracle`; the
handler returns its HTTP-level outcome together with the ordered trace of
GitHub API calls it made. -/

structure CommitFile where
  path : String
  action : String
  content : String
deriving Repr, DecidableEq

structure TreeEntry where
  path : String
  mode : String
  entryType : String
  sha : String
deriving Repr, DecidableEq

inductive GhCall
  | getRef (owner repo branch : String)
  | getCommit (owner repo sha : String)
  | createBlob (owner repo content : String)
  | createTree (owner repo baseTree : String) (entries : List TreeEntry)
  | createCommit (owner repo message treeSha : String) (parents : List String)
  | patchRef (owner repo branch sha : String)
deriving Repr, DecidableEq

/-- POST and PATCH calls are writes; the two GETs are reads. -/
def GhCall.isWrite : GhCall → Bool
  | GhCall.getRef _ _ _ => false
  | GhCall.getCommit _ _ _ => false
  | _ => true

structure GhOracle where
  refOk : Bool
  refSha : String
  commitTreeSha : String
  blobSha : String → String
  treeSha : String
  newCommitSha : String
  patchOk : Bool

inductive GhResp
  | badRequest
  | notConnected
  | upstreamError
  | ok (commitSha : String)
deriving Repr, DecidableEq

/-- Strip one leading slash from the path, as the tree-item construction
does before pushing the entry. -/
def stripLeadingSlash (p : String) : String :=
  if leadsWith "/".data p.data then String.mk (p.data.drop 1) else p

def githubCommitHandler (owner repo branch message : String)
    (files : Option (List CommitFile)) (githubToken : Option String)
    (o : GhOracle) : GhResp × List GhCall :=
  if owner = "" ∨ repo = "" ∨ branch = "" ∨ message = "" ∨ files = none then
    (GhResp.badRequest, [])
  else
    match githubToken with
    | none => (GhResp.notConnected, [])
    | some _ =>
      let fs := files.getD []
      let callRef := GhCall.getRef owner repo branch
      if !o.refOk then (GhResp.upstreamError, [callRef])
      else
        let currentCommitSha := o.refSha
        let callCommit := GhCall.getCommit owner repo currentCommitSha
        let currentTreeSha := o.commitTreeSha
        let keep := fs.filter fun f => f.action ≠ "delete"
        let blobCalls := keep.map fun f => GhCall.createBlob owner repo f.content
        let treeItems := keep.map fun f =>
          ({ path := stripLeadingSlash f.path, mode := "100644",
             entryType := "blob", sha := o.blobSha f.content } : TreeEntry)
        let callTree := GhCall.createTree owner repo currentTreeSha treeItems
        let callNewCommit :=
          GhCall.createCommit owner repo message o.treeSha [currentCommitSha]
        let callPatch := GhCall.patchRef owner repo branch o.newCommitSha
        ((if o.patchOk then GhResp.ok o.newCommitSha else GhResp.upstreamError),
         callRef :: callCommit :: (blobCalls ++ [callTree, callNewCommit, callPatch]))

/-! ### POST /webhooks/stripe/subscription

The handler verifies the internal webhook secret, requires a userId, and
performs one Prisma upsert keyed by that userId.  The spread patterns
`...(tier && { tier })` include a string field in the update only when it is
present and truthy (the empty string is falsy), while
`...(stripeSubscriptionId !== undefined && { stripeSubscriptionId })` and the
cancelAtPeriodEnd spread include the field whenever it is present.  `none`
models an absent field. -/

structure WebhookBody where
  userId : Option String
  tier : Option String
  status : Option String
  stripeCustomerId : Option String
  stripeSubscriptionId : Option String
  cancelAtPeriodEnd : Option Bool
deriving Repr, DecidableEq

/-- The fields the upsert's update clause carries (`none` = left unchanged). -/
structure SubscriptionUpdate where
  tier : Option String
  status : Option String
  stripeCustomerId : Option String
  stripeSubscriptionId : Option String
  cancelAtPeriodEnd : Option Bool
deriving Repr, DecidableEq

/-- The row the upsert's create clause inserts. -/
structure SubscriptionCreate where
  userId : String
  tier : String
  status : String
  stripeCustomerId : Option String
  stripeSubscriptionId : Option String
deriving Repr, DecidableEq

inductive DbOp
  | upsert (userId : String) (upd : SubscriptionUpdate)
      (create : SubscriptionCreate)
deriving Repr, DecidableEq

inductive WebhookResp
  | unauthorized
  | badRequest
  | ok
deriving Repr, DecidableEq

/-- JS truthiness of an optional string field. -/
def truthyStr : Option String → Bool
  | some s => s != ""
  | none => false

def webhookUpdateFields (b : WebhookBody) : SubscriptionUpdate :=
  { tier := if truthyStr b.tier then b.tier else none
    status := if truthyStr b.status then b.status else none
    stripeCustomerId := if truthyStr b.stripeCustomerId then b.stripeCustomerId else none
    stripeSubscriptionId := b.stripeSubscriptionId
    cancelAtPeriodEnd := b.cancelAtPeriodEnd }

def webhookCreateRow (uid : String) (b : WebhookBody) : SubscriptionCreate :=
  { userId := uid
    tier := match b.tier with
      | some t => if t ≠ "" then t else "free"
      | none => "free"
    status := match b.status with
      | some st => if st ≠ "" then st else "active"
      | none => "active"
    stripeCustomerId := b.stripeCustomerId
    stripeSubscriptionId := b.stripeSubscriptionId }

def stripeSubscriptionWebhook (secretHeader envSecret : Option String)
    (b : WebhookBody) : WebhookResp × List DbOp :=
  if secretHeader ≠ envSecret then (WebhookResp.unauthorized, [])
  else
    match b.userId with
    | none => (WebhookResp.badRequest, [])
    | some uid =>
      if uid = "" then (WebhookResp.badRequest, [])
      else (WebhookResp.ok,
        [DbOp.upsert uid (webhookUpdateFields b) (webhookCreateRow uid b)])

/-! ### Theorems -/

theorem leadsWith_iff (pat : List Char) : ∀ s, leadsWith pat s = true ↔ ∃ t, s = pat ++ t := by
  induction pat with
  | nil => intro s; simp [leadsWith]
  | cons p ps ih =>
    intro s
    cases s with
    | nil => simp [leadsWith]
    | cons c cs =>
      simp only [leadsWith, List.cons_append, Bool.and_eq_true, beq_iff_eq]
      constructor
      · rintro ⟨rfl, h⟩
        obtain ⟨t, rfl⟩ := (ih cs).mp h
        exact ⟨t, rfl⟩
      · rintro ⟨t, ht⟩
        cases ht
        exact ⟨rfl, (ih (ps ++ t)).mpr ⟨t, rfl⟩⟩

theorem splitFirst_eq_append {pat : List Char} :
    ∀ {s a b}, splitFirst pat s = some (a, b) → s = a ++ pat ++ b := by
  intro s
  induction s with
  | nil =>
    intro a b h
    by_cases hp : pat = []
    · simp [splitFirst, hp] at h
      rcases h with ⟨rfl, rfl⟩
      simp [hp]
    · simp [splitFirst, hp] at h
  | cons c cs ih =>
    intro a b h
    simp only [splitFirst] at h
    by_cases hl : leadsWith pat (c :: cs) = true
    · obtain ⟨t, ht⟩ := (leadsWith_iff pat (c :: cs)).mp hl
      rw [if_pos hl] at h
      injection h with h'
      have h1 : a = [] := congrArg Prod.fst h' |>.symm
      have h2 : b = (c :: cs).drop pat.length := congrArg Prod.snd h' |>.symm
      subst h1; subst h2
      rw [ht, List.drop_append_of_le_length (Nat.le_refl _)]
      simp
    · rw [if_neg hl] at h
      cases hsf : splitFirst pat cs with
      | none => rw [hsf] at h; exact absurd h (by simp)
      | some ab =>
        obtain ⟨a', b'⟩ := ab
        rw [hsf] at h
        injection h with h'
        have h1 : a = c :: a' := congrArg Prod.fst h' |>.symm
        have h2 : b = b' := congrArg Prod.snd h' |>.symm
        subst h1; subst h2
        have := ih hsf
        simp [this]

theorem splitFirst_none {pat : List Char} :
    ∀ {s}, splitFirst pat s = none → ∀ x y, s ≠ x ++ pat ++ y := by
  intro s
  induction s with
  | nil =>
    intro h x y he
    by_cases hp : pat = []
    · simp [splitFirst, hp] at h
    · have hx : x ++ pat ++ y = [] := he.symm
      rw [List.append_assoc] at hx
      rcases List.append_eq_nil.mp hx with ⟨-, h2⟩
      rcases List.append_eq_nil.mp h2 with ⟨h3, -⟩
      exact hp h3
  | cons c cs ih =>
    intro h x y he
    simp only [splitFirst] at h
    by_cases hl : leadsWith pat (c :: cs) = true
    · rw [if_pos hl] at h; exact absurd h (by simp)
    · rw [if_neg hl] at h
      cases x with
      | nil =>
        apply hl
        exact (leadsWith_iff pat (c :: cs)).mpr ⟨y, by simpa using he⟩
      | cons x0 xs =>
        cases hsf : splitFirst pat cs with
        | none =>
          have he' : cs = xs ++ pat ++ y := by
            have h2 := congrArg List.tail he
            simpa [List.append_assoc] using h2
          exact ih hsf xs y he'
        | some ab => rw [hsf] at h; exact absurd h (by simp)

theorem splitFirst_min {pat : List Char} :
    ∀ {s a b}, splitFirst pat s = some (a, b) →
      ∀ x y, s = x ++ pat ++ y → a.length ≤ x.length := by
  intro s
  induction s with
  | nil =>
    intro a b h x y he
    by_cases hp : pat = []
    · simp [splitFirst, hp] at h
      rcases h with ⟨rfl, rfl⟩
      simp
    · simp [splitFirst, hp] at h
  | cons c cs ih =>
    intro a b h x y he
    simp only [splitFirst] at h
    by_cases hl : leadsWith pat (c :: cs) = true
    · rw [if_pos hl] at h
      injection h with h'
      have h1 : a = [] := congrArg Prod.fst h' |>.symm
      subst h1
      exact Nat.zero_le _
    · rw [if_neg hl] at h
      cases hsf : splitFirst pat cs with
      | none => rw [hsf] at h; exact absurd h (by simp)
      | some ab =>
        obtain ⟨a', b'⟩ := ab
        rw [hsf] at h
        injection h with h'
        have h1 : a = c :: a' := congrArg Prod.fst h' |>.symm
        subst h1
        cases x with
        | nil =>
          exfalso
          apply hl
          exact (leadsWith_iff pat (c :: cs)).mpr ⟨y, by simpa using he⟩
        | cons x0 xs =>
          have he' : cs = xs ++ pat ++ y := by
            have h2 := congrArg List.tail he
            simpa [List.append_assoc] using h2
          simpa using Nat.succ_le_succ (ih hsf xs y he')

/-- The first component returned by `splitFirst` contains no occurrence of the
(nonempty) pattern. -/
theorem splitFirst_fst_no_occ {pat : List Char} (hpat : pat ≠ []) :
    ∀ {s a b}, splitFirst pat s = some (a, b) → ∀ x y, a ≠ x ++ pat ++ y := by
  intro s a b h x y he
  have hs := splitFirst_eq_append h
  have hmin : a.length ≤ x.length := by
    apply splitFirst_min h x (y ++ pat ++ b)
    rw [hs, he]
    simp [List.append_assoc]
  rw [he] at hmin
  simp only [List.length_append] at hmin
  have hlen : 0 < pat.length := List.length_pos.mpr hpat
  omega

theorem SM_length : SM.length = 24 := by decide

theorem EM_length : EM.length = 22 := by decide

theorem SM_ne_nil : SM ≠ [] := by decide

theorem EM_ne_nil : EM ≠ [] := by decide

/-- If the start marker does not occur at all, no complete block occurs. -/
theorem noBlock_of_no_SM {s : List Char} (h : ∀ x y, s ≠ x ++ SM ++ y) :
    ∀ x m y, s ≠ x ++ SM ++ m ++ EM ++ y := by
  intro x m y he
  exact h x (m ++ EM ++ y) (by rw [he]; simp [List.append_assoc])

/-- If `s = a ++ SM ++ rest` with `a` shortest and `EM` does not occur in
`rest`, then no complete block occurs in `s`. -/
theorem noBlock_of_no_EM {s a rest : List Char}
    (hs : splitFirst SM s = some (a, rest))
    (hem : splitFirst EM rest = none) :
    ∀ x m y, s ≠ x ++ SM ++ m ++ EM ++ y := by
  intro x m y he
  have heq : s = a ++ SM ++ rest := splitFirst_eq_append hs
  have hmin : a.length ≤ x.length :=
    splitFirst_min hs x (m ++ EM ++ y) (by rw [he]; simp [List.append_assoc])
  -- `EM ++ y` is the suffix of `s` at offset `x.length + SM.length + m.length`,
  -- which lies inside `rest` (the suffix at offset `a.length + SM.length`).
  have hdrop1 : s.drop (a.length + SM.length) = rest := by
    rw [heq, ← List.length_append a SM]
    exact List.drop_left (a ++ SM) rest
  have hdrop2 : s.drop (x.length + SM.length + m.length) = EM ++ y := by
    have hsplit : s = ((x ++ SM) ++ m) ++ (EM ++ y) := by
      rw [he]; simp [List.append_assoc]
    rw [hsplit]
    have hl : ((x ++ SM) ++ m).length = x.length + SM.length + m.length := by
      simp only [List.length_append]
    rw [← hl]
    exact List.drop_left _ _
  have hk : rest.drop (x.length + m.length - a.length) = EM ++ y := by
    rw [← hdrop1, List.drop_drop]
    have harith : a.length + SM.length + (x.length + m.length - a.length) =
        x.length + SM.length + m.length := by omega
    rw [harith, hdrop2]
  have hrest : rest = rest.take (x.length + m.length - a.length) ++ EM ++ y := by
    conv_lhs => rw [← List.take_append_drop (x.length + m.length - a.length) rest, hk]
    simp [List.append_assoc]
  exact splitFirst_none hem _ y hrest

/-- Every delimited block in the input is removed by the global replace:
`removeBlocks` realizes a left-to-right block-removal decomposition. -/
theorem removeBlocksF_decomp :
    ∀ (fuel : Nat) (s : List Char), s.length ≤ fuel →
      RemovalDecomp s (removeBlocksF fuel s) := by
  intro fuel
  induction fuel with
  | zero =>
    intro s hs
    have : s = [] := List.length_eq_zero.mp (Nat.le_zero.mp hs)
    subst this
    exact RemovalDecomp.noBlock (by
      intro x m y he
      have := congrArg List.length he
      simp only [List.length_nil, List.length_append, SM_length, EM_length] at this
      omega)
  | succ fuel ih =>
    intro s hs
    cases hsm : splitFirst SM s with
    | none =>
      simp only [removeBlocksF, hsm]
      exact RemovalDecomp.noBlock (noBlock_of_no_SM (splitFirst_none hsm))
    | some ar =>
      obtain ⟨a, rest⟩ := ar
      cases hem : splitFirst EM rest with
      | none =>
        simp only [removeBlocksF, hsm, hem]
        exact RemovalDecomp.noBlock (noBlock_of_no_EM hsm hem)
      | some mp =>
        obtain ⟨mid, post⟩ := mp
        simp only [removeBlocksF, hsm, hem]
        have heq : s = a ++ SM ++ mid ++ EM ++ post := by
          rw [splitFirst_eq_append hsm, splitFirst_eq_append hem]
          simp [List.append_assoc]
        have hlen : post.length ≤ fuel := by
          have hc := congrArg List.length heq
          simp only [List.length_append, SM_length, EM_length] at hc
          omega
        have hstep := RemovalDecomp.step
          (splitFirst_fst_no_occ SM_ne_nil hsm)
          (splitFirst_fst_no_occ EM_ne_nil hem)
          (ih post hlen)
        rw [heq]
        exact hstep

theorem removeBlocks_decomp (s : List Char) : RemovalDecomp s (removeBlocks s) :=
  removeBlocksF_decomp s.length s (Nat.le_refl _)

/-- Strings shorter than the two markers combined hold no complete block. -/
theorem noBlock_of_short {s : List Char} (h : s.length < 46) :
    ∀ x m y, s ≠ x ++ SM ++ m ++ EM ++ y := by
  intro x m y he
  have hc := congrArg List.length he
  simp only [List.length_append, SM_length, EM_length] at hc
  omega

/-- C4: `parseFileChanges` extracts the text between the first
`---FILE_CHANGES_START---` and `---FILE_CHANGES_END---` markers, trims it,
hands it to `JSON.parse` and returns the `changes` array; on any input with
no complete delimited block, or whose delimited text fails to parse, or whose
parsed value lacks a `changes` field, it returns `[]` (and, being a total
function of the parse outcome, never throws).  The extraction is pinned to
the first markers: the prefix before the matched start marker contains no
start marker, and the extracted text contains no end marker. -/
theorem c4_parseFileChanges_spec :
    ∀ (jp : List Char → Option (Option (List FileChange))) (content : List Char),
      ((∀ x m y, content ≠ x ++ SM ++ m ++ EM ++ y) → parseFileChanges jp content = []) ∧
      (∀ a rest mid post,
        splitFirst SM content = some (a, rest) →
        splitFirst EM rest = some (mid, post) →
        content = a ++ SM ++ mid ++ EM ++ post ∧
        (∀ x y, a ≠ x ++ SM ++ y) ∧
        (∀ x y, mid ≠ x ++ EM ++ y) ∧
        (jp (trimChars mid) = none → parseFileChanges jp content = []) ∧
        (jp (trimChars mid) = some none → parseFileChanges jp content = []) ∧
        (∀ cs, jp (trimChars mid) = some (some cs) → parseFileChanges jp content = cs)) := by
  intro jp content
  constructor
  · intro hnone
    cases hsm : splitFirst SM content with
    | none => simp [parseFileChanges, hsm]
    | some ar =>
      obtain ⟨a, rest⟩ := ar
      cases hem : splitFirst EM rest with
      | none => simp [parseFileChanges, hsm, hem]
      | some mp =>
        obtain ⟨mid, post⟩ := mp
        exfalso
        apply hnone a mid post
        rw [splitFirst_eq_append hsm, splitFirst_eq_append hem]
        simp [List.append_assoc]
  · intro a rest mid post hsm hem
    refine ⟨?_, splitFirst_fst_no_occ SM_ne_nil hsm, splitFirst_fst_no_occ EM_ne_nil hem,
      ?_, ?_, ?_⟩
    · rw [splitFirst_eq_append hsm, splitFirst_eq_append hem]
      simp [List.append_assoc]
    · intro hjp; simp [parseFileChanges, hsm, hem, hjp]
    · intro hjp; simp [parseFileChanges, hsm, hem, hjp]
    · intro cs hjp; simp [parseFileChanges, hsm, hem, hjp]

/-- Witness for C4: a markerless input yields `[]`; a well-formed block whose
parse succeeds yields its changes; a block whose parse fails yields `[]`. -/
theorem c4_parseFileChanges_spec_witness :
    parseFileChanges (fun _ => none) "hello".data = [] ∧
    parseFileChanges (fun _ => some (some [⟨"a.ts", "modify", some "x"⟩]))
      (SM ++ "\x7b\x7d".data ++ EM) = [⟨"a.ts", "modify", some "x"⟩] ∧
    parseFileChanges (fun _ => none) (SM ++ "notjson".data ++ EM) = [] := by
  refine ⟨?_, ?_, ?_⟩
  · exact (c4_parseFileChanges_spec (fun _ => none) "hello".data).1
      (noBlock_of_short (by decide))
  · exact ((c4_parseFileChanges_spec _ (SM ++ "\x7b\x7d".data ++ EM)).2
      [] ("\x7b\x7d".data ++ EM) "\x7b\x7d".data [] (by decide) (by decide)).2.2.2.2.2
      [⟨"a.ts", "modify", some "x"⟩] rfl
  · exact ((c4_parseFileChanges_spec _ (SM ++ "notjson".data ++ EM)).2
      [] ("notjson".data ++ EM) "notjson".data [] (by decide) (by decide)).2.2.2.1 rfl

/-- C5 counterexample: the claim "the returned content contains no complete
delimited block" is false.  On the model output `badOutput` the single global
replace removes the inner block and thereby concatenates the fragments
`---FILE_CHANGES_ST` and `ART---Y---FILE_CHANGES_END---` into a complete
delimited block, which `chatWithTools` then returns as content. -/
theorem c5_counterexample_cleaned_content_contains_block :
    ∃ x m y, chatWithToolsContent [ContentBlock.text badOutput] =
      x ++ SM ++ m ++ EM ++ y :=
  ⟨[], "Y".data, [], by decide⟩

/-- C5 amended: the `content` returned by chat, streamChat, chatWithTools and
streamChatWithTools equals the assembled model text with the delimited blocks
removed by one left-to-right scan (each removed block starts at a start
marker preceded by no earlier unremoved start marker and ends at the next end
marker), then trimmed; every complete block present in the model text is
removed, but the concatenated remainder may itself contain a complete
delimited block (see the counterexample). -/
theorem c5_amended_content_is_block_removal :
    ∀ (blocks : List ContentBlock) (textDeltas : List (List Char)),
      chatContent blocks = trimChars (removeBlocks (firstTextBlock blocks)) ∧
      streamChatContent textDeltas = trimChars (removeBlocks textDeltas.flatten) ∧
      chatWithToolsContent blocks = trimChars (removeBlocks (extractTextContent blocks)) ∧
      streamChatWithToolsContent textDeltas = trimChars (removeBlocks textDeltas.flatten) ∧
      RemovalDecomp (extractTextContent blocks) (removeBlocks (extractTextContent blocks)) ∧
      RemovalDecomp textDeltas.flatten (removeBlocks textDeltas.flatten) :=
  fun _ _ =>
    ⟨rfl, rfl, rfl, rfl, removeBlocks_decomp _, removeBlocks_decomp _⟩

theorem toolLoopAux_iterations_le (resp : Nat → LoopStepResult) :
    ∀ (fuel iterations : Nat) (c : String) (f : List FileChange),
      (toolLoopAux resp fuel iterations c f).iterations ≤ iterations + fuel := by
  intro fuel
  induction fuel with
  | zero => intro iterations c f; simp [toolLoopAux]
  | succ fuel ih =>
    intro iterations c f
    simp only [toolLoopAux]
    by_cases hw : wantsTools (resp (iterations + 1)) = true
    · rw [if_pos hw]
      have := ih (iterations + 1) (resp (iterations + 1)).content
        (f ++ (resp (iterations + 1)).fileChanges)
      omega
    · rw [if_neg hw]
      simp only []
      omega

theorem toolLoopAux_early_exit (resp : Nat → LoopStepResult) :
    ∀ (m fuel iterations : Nat) (c : String) (f : List FileChange),
      m < fuel →
      (∀ j, iterations < j → j ≤ iterations + m → wantsTools (resp j) = true) →
      wantsTools (resp (iterations + m + 1)) = false →
      (toolLoopAux resp fuel iterations c f).iterations = iterations + m + 1 := by
  intro m
  induction m with
  | zero =>
    intro fuel iterations c f hm hall hstop
    obtain ⟨fuel2, rfl⟩ : ∃ fuel2, fuel = fuel2 + 1 :=
      ⟨fuel - 1, by omega⟩
    simp only [toolLoopAux]
    rw [if_neg (by simpa using hstop)]
  | succ m ih =>
    intro fuel iterations c f hm hall hstop
    obtain ⟨fuel2, rfl⟩ : ∃ fuel2, fuel = fuel2 + 1 :=
      ⟨fuel - 1, by omega⟩
    simp only [toolLoopAux]
    rw [if_pos (hall (iterations + 1) (by omega) (by omega))]
    have hrec := ih fuel2 (iterations + 1) (resp (iterations + 1)).content
      (f ++ (resp (iterations + 1)).fileChanges)
      (by omega)
      (fun j h1 h2 => hall j (by omega) (by omega))
      (by
        have : iterations + 1 + m + 1 = iterations + (m + 1) + 1 := by omega
        rw [this]; exact hstop)
    omega

/-- C1: for every request to POST /api/chat/with-tools, streaming or not, the
loop performs at most MAX_TOOL_ITERATIONS = 10 iterations; it exits right
after the first model call whose response either has a stop reason other
than tool_use or carries no tool calls; and the HTTP response body reports
the iteration count actually used. -/
theorem c1_tool_loop_bounded :
    ∀ (resp : Nat → LoopStepResult),
      (streamWithToolsLoop resp).iterations ≤ MAX_TOOL_ITERATIONS ∧
      (chatWithToolsLoop resp).iterations ≤ MAX_TOOL_ITERATIONS ∧
      (∀ k, k < MAX_TOOL_ITERATIONS →
        (∀ j, 1 ≤ j → j ≤ k → wantsTools (resp j) = true) →
        wantsTools (resp (k + 1)) = false →
        (streamWithToolsLoop resp).iterations = k + 1 ∧
        (chatWithToolsLoop resp).iterations = k + 1) ∧
      (withToolsStreamResponse resp).iterations = (streamWithToolsLoop resp).iterations ∧
      (withToolsJsonResponse resp).iterations = (chatWithToolsLoop resp).iterations := by
  intro resp
  refine ⟨?_, ?_, ?_, rfl, rfl⟩
  · simpa using toolLoopAux_iterations_le resp MAX_TOOL_ITERATIONS 0 "" []
  · simpa using toolLoopAux_iterations_le resp MAX_TOOL_ITERATIONS 0 "" []
  · intro k hk hall hstop
    constructor
    · simpa using toolLoopAux_early_exit resp k MAX_TOOL_ITERATIONS 0 "" [] hk
        (fun j h1 h2 => hall j (by omega) (by omega)) (by simpa using hstop)
    · simpa using toolLoopAux_early_exit resp k MAX_TOOL_ITERATIONS 0 "" [] hk
        (fun j h1 h2 => hall j (by omega) (by omega)) (by simpa using hstop)

/-- Witness for C1: with a response stream that wants tools on the first call
and stops on the second, both branches use exactly 2 iterations, below the
cap of 10. -/
theorem c1_tool_loop_bounded_witness :
    (streamWithToolsLoop c1WitnessResp).iterations = 2 ∧
    (chatWithToolsLoop c1WitnessResp).iterations = 2 ∧
    (streamWithToolsLoop c1WitnessResp).iterations ≤ MAX_TOOL_ITERATIONS := by
  have h := c1_tool_loop_bounded c1WitnessResp
  have h2 := h.2.2.1 1 (by decide)
    (by intro j h1 hj; have : j = 1 := by omega
        subst this; decide)
    (by decide)
  exact ⟨h2.1, h2.2, h.1⟩

/-- C7 counterexample: with two tool calls in one iteration (here two
read_file calls), after both calls of the `Promise.all` map have started,
two storage HTTP requests are in flight at once — refuting "the loop
executes them strictly one after another, never issuing two storage HTTP
requests concurrently". -/
theorem c7_counterexample_two_requests_in_flight :
    inFlightAt (promiseAllToolTrace
      [⟨"t1", "read_file", ⟨"a.ts", [], ""⟩⟩,
       ⟨"t2", "read_file", ⟨"b.ts", [], ""⟩⟩]) 2 = 2 := by decide

/-- C7 amended: within one iteration the tool calls are executed
concurrently: the `Promise.all` trace issues every request of the iteration
before awaiting any completion, so right after the issues the number of
requests in flight equals the number of tool calls of that iteration — while
the strictly sequential schedule the spec describes would never have more
than one request in flight. -/
theorem countP_issue_map (l : List ToolCall) :
    (l.map (fun tc => HttpEvent.issue tc.id)).countP isIssue = l.length := by
  induction l with
  | nil => rfl
  | cons t ts ih => simp [List.countP_cons, isIssue, ih]

theorem countP_complete_map (l : List ToolCall) :
    (l.map (fun tc => HttpEvent.issue tc.id)).countP isComplete = 0 := by
  induction l with
  | nil => rfl
  | cons t ts ih => simp [List.countP_cons, isComplete, ih]

theorem c7_amended_promiseAll_concurrency :
    ∀ toolCalls : List ToolCall,
      inFlightAt (promiseAllToolTrace toolCalls) toolCalls.length = toolCalls.length ∧
      (∀ k, inFlightAt (sequentialToolTrace toolCalls) k ≤ 1) := by
  intro toolCalls
  constructor
  · have htake : (promiseAllToolTrace toolCalls).take toolCalls.length =
        toolCalls.map (fun tc => HttpEvent.issue tc.id) := by
      have hlen : (toolCalls.map (fun tc => HttpEvent.issue tc.id)).length =
          toolCalls.length := List.length_map _ _
      rw [promiseAllToolTrace, ← hlen, List.take_left]
    rw [inFlightAt, htake, countP_issue_map, countP_complete_map]
    omega
  · intro k
    induction toolCalls generalizing k with
    | nil => simp [inFlightAt, sequentialToolTrace]
    | cons tc rest ih =>
      have hseq : sequentialToolTrace (tc :: rest) =
          HttpEvent.issue tc.id :: HttpEvent.complete tc.id ::
            sequentialToolTrace rest := by
        simp [sequentialToolTrace]
      match k with
      | 0 => simp [inFlightAt]
      | 1 =>
        rw [hseq]
        simp [inFlightAt, List.take_succ_cons, List.countP_cons, isIssue, isComplete]
      | Nat.succ (Nat.succ k2) =>
        rw [hseq]
        have h2 := ih k2
        simp only [inFlightAt, List.take_succ_cons, List.countP_cons,
          isIssue, isComplete] at h2 ⊢
        omega

/-- C10: on the three chat routes a model value that is not exactly haiku,
sonnet or opus — including a missing model — is silently replaced by sonnet,
and the early request validation never rejects a request because of the
model value. -/
theorem c10_invalid_model_falls_back_to_sonnet :
    ∀ model : Option String,
      (model = none ∨ ∃ s, model = some s ∧ isValidModel s = false) →
      chatRouteModel model = "sonnet" ∧
      withToolsRouteModel model = "sonnet" ∧
      generateContextRouteModel model = "sonnet" ∧
      (∀ mp, chatRouteReject mp model = chatRouteReject mp none) ∧
      (∀ mp te sp, withToolsRouteReject mp te sp model = withToolsRouteReject mp te sp none) ∧
      (∀ pp, generateContextRouteReject pp model = generateContextRouteReject pp none) := by
  intro model h
  have hval : validModel model = "sonnet" := by
    rcases h with rfl | ⟨s, rfl, hs⟩
    · rfl
    · simp [validModel, hs]
  exact ⟨hval, hval, hval, fun _ => rfl, fun _ _ _ => rfl, fun _ => rfl⟩

/-- Witness for C10: the invalid model value gpt-4 resolves to sonnet on all
three routes and does not cause a rejection. -/
theorem c10_invalid_model_falls_back_to_sonnet_witness :
    chatRouteModel (some "gpt-4") = "sonnet" ∧
    withToolsRouteModel (some "gpt-4") = "sonnet" ∧
    generateContextRouteModel (some "gpt-4") = "sonnet" ∧
    chatRouteReject true (some "gpt-4") = none := by
  have h := c10_invalid_model_falls_back_to_sonnet (some "gpt-4")
    (Or.inr ⟨"gpt-4", rfl, by decide⟩)
  refine ⟨h.1, h.2.1, h.2.2.1, ?_⟩
  rw [h.2.2.2.1 true]
  rfl

/-- C9: in every chat-service operation, a supplied (nonempty) options.apiKey
yields a client built with exactly that key, an absent key yields the shared
default client built from ANTHROPIC_API_KEY, and the used key is always
either the user's or the server's, never a mixture. -/
theorem c9_byok_key_selection :
    ∀ (k envKey : String), k ≠ "" →
      chatClientKey (some k) envKey = k ∧
      streamChatClientKey (some k) envKey = k ∧
      chatWithToolsClientKey (some k) envKey = k ∧
      streamChatWithToolsClientKey (some k) envKey = k ∧
      analyzeProjectClientKey (some k) envKey = k ∧
      generateContextFileClientKey (some k) envKey = k ∧
      chatClientKey none envKey = envKey ∧
      streamChatClientKey none envKey = envKey ∧
      chatWithToolsClientKey none envKey = envKey ∧
      streamChatWithToolsClientKey none envKey = envKey ∧
      analyzeProjectClientKey none envKey = envKey ∧
      generateContextFileClientKey none envKey = envKey ∧
      (∀ o, (∃ u, o = some u ∧ u ≠ "" ∧ selectedClientKey o envKey = u) ∨
        selectedClientKey o envKey = envKey) := by
  intro k envKey hk
  have hsel : selectedClientKey (some k) envKey = k := by
    simp [selectedClientKey, createClientKey, hk]
  have hnone : selectedClientKey none envKey = envKey := rfl
  refine ⟨hsel, hsel, hsel, hsel, hsel, hsel,
    hnone, hnone, hnone, hnone, hnone, hnone, ?_⟩
  intro o
  match o with
  | none => exact Or.inr rfl
  | some u =>
    by_cases hu : u = ""
    · exact Or.inr (by simp [selectedClientKey, defaultClientKey, createClientKey, hu])
    · exact Or.inl ⟨u, rfl, hu, by simp [selectedClientKey, createClientKey, hu]⟩

/-- Witness for C9 at a concrete user key and server key. -/
theorem c9_byok_key_selection_witness :
    chatClientKey (some "sk-user-key") "sk-server-key" = "sk-user-key" ∧
    chatClientKey none "sk-server-key" = "sk-server-key" :=
  ⟨(c9_byok_key_selection "sk-user-key" "sk-server-key" (by decide)).1,
   (c9_byok_key_selection "sk-user-key" "sk-server-key" (by decide)).2.2.2.2.2.2.1⟩

/-- Every successful branch of the switch builds its result with the call's
id. -/
theorem executeToolCallAttempt_ok_id (tc : ToolCall) (storageType : StorageType)
    (projectPath : String) (github : Option GithubRef)
    (fileList : Option (List String)) (st : Storage) :
    ∀ res, executeToolCallAttempt tc storageType projectPath github fileList st
      = Except.ok res → res.toolCallId = tc.id := by
  intro res h
  simp only [executeToolCallAttempt] at h
  repeat' split at h
  all_goals cases h <;> rfl

/-- The default switch case fires exactly on a name outside the handled
three. -/
theorem executeToolCall_unknown (tc : ToolCall) (storageType : StorageType)
    (projectPath : String) (github : Option GithubRef)
    (fileList : Option (List String)) (st : Storage)
    (h : tc.name ∉ HANDLED_TOOL_NAMES) :
    executeToolCall tc storageType projectPath github fileList st =
      unknownToolResult tc := by
  simp only [HANDLED_TOOL_NAMES, List.mem_cons, List.not_mem_nil, or_false,
    not_or] at h
  obtain ⟨h1, h2, h3⟩ := h
  simp [executeToolCall, executeToolCallAttempt, catchToolError, h1, h2, h3]

/-- Every branch of executeToolCall returns a result carrying the call id. -/
theorem executeToolCall_toolCallId (tc : ToolCall) (storageType : StorageType)
    (projectPath : String) (github : Option GithubRef)
    (fileList : Option (List String)) (st : Storage) :
    (executeToolCall tc storageType projectPath github fileList st).toolCallId
      = tc.id := by
  cases hat : executeToolCallAttempt tc storageType projectPath github fileList st with
  | error e => simp [executeToolCall, catchToolError, hat]
  | ok res =>
    simp [executeToolCall, catchToolError, hat,
      executeToolCallAttempt_ok_id tc storageType projectPath github fileList st
        res hat]

/-- A throwing fetch in read_file is caught and stringified. -/
theorem executeToolCall_read_file_error (tc : ToolCall)
    (storageType : StorageType) (projectPath : String)
    (github : Option GithubRef) (fileList : Option (List String)) (st : Storage)
    (e : String) (hname : tc.name = "read_file")
    (hres : readProjectFile st storageType projectPath github tc.input.path =
      Except.error e) :
    executeToolCall tc storageType projectPath github fileList st =
      { toolCallId := tc.id
        result := "Error executing " ++ tc.name ++ ": " ++ e
        isError := true } := by
  simp [executeToolCall, executeToolCallAttempt, catchToolError, hname, hres]

/-- read_multiple_files never escalates a per-path failure. -/
theorem executeToolCall_read_multiple (tc : ToolCall)
    (storageType : StorageType) (projectPath : String)
    (github : Option GithubRef) (fileList : Option (List String)) (st : Storage)
    (hname : tc.name = "read_multiple_files") :
    executeToolCall tc storageType projectPath github fileList st =
      { toolCallId := tc.id
        result := String.intercalate "\n\n"
          (tc.input.paths.map (readEntry st storageType projectPath github))
        isError := false } := by
  simp [executeToolCall, executeToolCallAttempt, catchToolError, hname]

/-- C2 counterexample: the tool list offered to the model does not contain
exactly two tools — FILE_TOOLS has three entries (read_file,
read_multiple_files, search_files). -/
theorem c2_counterexample_not_two_tools : FILE_TOOLS.length ≠ 2 := by decide

/-- C2 amended: the tool list offered to the model contains exactly three
tools — read_file, read_multiple_files and search_files — and these are
exactly the names executeToolCall handles: any other name falls through to
the unknown-tool error result. -/
theorem c2_amended_exactly_three_tools :
    FILE_TOOLS.map ToolSpec.name = HANDLED_TOOL_NAMES ∧
    FILE_TOOLS.length = 3 ∧
    (∀ (tc : ToolCall) (storageType : StorageType) (projectPath : String)
      (github : Option GithubRef) (fileList : Option (List String))
      (st : Storage),
      tc.name ∉ HANDLED_TOOL_NAMES →
      executeToolCall tc storageType projectPath github fileList st =
        unknownToolResult tc) :=
  ⟨by decide, by decide, executeToolCall_unknown⟩

/-- Witness for C2 amended: a write_file call lands in the default case. -/
theorem c2_amended_exactly_three_tools_witness :
    executeToolCall ⟨"t9", "write_file", ⟨"", [], ""⟩⟩ StorageType.onedrive "/"
      none none ⟨fun _ => Except.error "offline", Except.error "offline"⟩ =
      unknownToolResult ⟨"t9", "write_file", ⟨"", [], ""⟩⟩ :=
  c2_amended_exactly_three_tools.2.2 _ _ _ _ _ _ (by decide)

/-- C6: executeToolCall is total on its result channel: every branch returns
a ToolResult carrying the call id; a name outside the handled cases yields
the exact string "Unknown tool: <name>" with isError true; an error thrown
while executing a handled tool (here: the read_file fetch) is caught and
yields "Error executing <name>: <message>" with isError true; and inside
read_multiple_files a per-path failure only turns that path's entry into a
fixed error line while every remaining path is still read. -/
theorem c6_executeToolCall_total_error_handling :
    ∀ (tc : ToolCall) (storageType : StorageType) (projectPath : String)
      (github : Option GithubRef) (fileList : Option (List String))
      (st : Storage),
      (executeToolCall tc storageType projectPath github fileList st).toolCallId
        = tc.id ∧
      (tc.name ∉ HANDLED_TOOL_NAMES →
        executeToolCall tc storageType projectPath github fileList st =
          { toolCallId := tc.id
            result := "Unknown tool: " ++ tc.name
            isError := true }) ∧
      (∀ e, tc.name = "read_file" →
        readProjectFile st storageType projectPath github tc.input.path =
          Except.error e →
        executeToolCall tc storageType projectPath github fileList st =
          { toolCallId := tc.id
            result := "Error executing " ++ tc.name ++ ": " ++ e
            isError := true }) ∧
      (tc.name = "read_multiple_files" →
        ∀ (ps1 : List String) (p : String) (ps2 : List String) (e : String),
          tc.input.paths = ps1 ++ p :: ps2 →
          readProjectFile st storageType projectPath github p = Except.error e →
          executeToolCall tc storageType projectPath github fileList st =
            { toolCallId := tc.id
              result := String.intercalate "\n\n"
                (ps1.map (readEntry st storageType projectPath github) ++
                  ("=== File: " ++ p ++ " ===\nError: Could not read file") ::
                    ps2.map (readEntry st storageType projectPath github))
              isError := false }) := by
  intro tc storageType projectPath github fileList st
  refine ⟨executeToolCall_toolCallId tc storageType projectPath github fileList st,
    fun h => executeToolCall_unknown tc storageType projectPath github fileList st h,
    fun e hname hres =>
      executeToolCall_read_file_error tc storageType projectPath github fileList st
        e hname hres,
    fun hname ps1 p ps2 e hpaths hres => ?_⟩
  rw [executeToolCall_read_multiple tc storageType projectPath github fileList st hname,
    hpaths]
  simp [List.map_append, readEntry, hres]

/-- Witness for C6: an unknown tool, a throwing read_file, and a
read_multiple_files where the middle path fails while its neighbours are
still read. -/
theorem c6_executeToolCall_total_error_handling_witness :
    executeToolCall ⟨"t1", "delete_file", ⟨"", [], ""⟩⟩ StorageType.onedrive "/"
      none none c6Storage =
      { toolCallId := "t1", result := "Unknown tool: delete_file", isError := true } ∧
    executeToolCall ⟨"t2", "read_file", ⟨"b.ts", [], ""⟩⟩ StorageType.onedrive "/"
      none none c6Storage =
      { toolCallId := "t2", result := "Error executing read_file: boom", isError := true } ∧
    executeToolCall ⟨"t3", "read_multiple_files", ⟨"", ["a.ts", "b.ts", "c.ts"], ""⟩⟩
      StorageType.onedrive "/" none none c6Storage =
      { toolCallId := "t3"
        result := "=== File: a.ts ===\ndata\n\n=== File: b.ts ===\nError: Could not read file\n\n=== File: c.ts ===\ndata"
        isError := false } := by
  refine ⟨?_, ?_, ?_⟩
  · rw [(c6_executeToolCall_total_error_handling
      ⟨"t1", "delete_file", ⟨"", [], ""⟩⟩ StorageType.onedrive "/" none none
      c6Storage).2.1 (by decide)]
    rfl
  · rw [(c6_executeToolCall_total_error_handling
      ⟨"t2", "read_file", ⟨"b.ts", [], ""⟩⟩ StorageType.onedrive "/" none none
      c6Storage).2.2.1 "boom" rfl rfl]
    rfl
  · rw [(c6_executeToolCall_total_error_handling
      ⟨"t3", "read_multiple_files", ⟨"", ["a.ts", "b.ts", "c.ts"], ""⟩⟩
      StorageType.onedrive "/" none none c6Storage).2.2.2 rfl
      ["a.ts"] "b.ts" ["c.ts"] "boom" rfl rfl]
    decide

theorem filter_isWrite_blobs (owner repo : String) :
    ∀ l : List CommitFile,
      (l.map fun f => GhCall.createBlob owner repo f.content).filter
        (fun c => c.isWrite) =
      l.map fun f => GhCall.createBlob owner repo f.content := by
  intro l
  induction l with
  | nil => rfl
  | cons f fs ih => simp [GhCall.isWrite, ih]

/-- C3: with valid inputs, a connected GitHub account and a readable branch
ref, the handler calls GitHub in exactly this order: read the branch ref,
read the current commit, one blob per non-delete file (in file order), one
tree based on the current tree whose entries point at the created blobs,
one commit whose tree is the new tree and whose sole parent is the current
commit, then the ref PATCH; its writes are exactly the blobs, the tree, the
commit and the ref update. -/
theorem c3_github_commit_sequence :
    ∀ (owner repo branch message : String) (fs : List CommitFile)
      (token : String) (o : GhOracle),
      owner ≠ "" → repo ≠ "" → branch ≠ "" → message ≠ "" → o.refOk = true →
      (githubCommitHandler owner repo branch message (some fs) (some token) o).2 =
        GhCall.getRef owner repo branch ::
        GhCall.getCommit owner repo o.refSha ::
        (((fs.filter fun f => f.action ≠ "delete").map fun f =>
            GhCall.createBlob owner repo f.content) ++
          [GhCall.createTree owner repo o.commitTreeSha
            ((fs.filter fun f => f.action ≠ "delete").map fun f =>
              { path := stripLeadingSlash f.path, mode := "100644",
                entryType := "blob", sha := o.blobSha f.content }),
           GhCall.createCommit owner repo message o.treeSha [o.refSha],
           GhCall.patchRef owner repo branch o.newCommitSha]) ∧
      (githubCommitHandler owner repo branch message (some fs) (some token) o).2.filter
          (fun c => c.isWrite) =
        ((fs.filter fun f => f.action ≠ "delete").map fun f =>
            GhCall.createBlob owner repo f.content) ++
          [GhCall.createTree owner repo o.commitTreeSha
            ((fs.filter fun f => f.action ≠ "delete").map fun f =>
              { path := stripLeadingSlash f.path, mode := "100644",
                entryType := "blob", sha := o.blobSha f.content }),
           GhCall.createCommit owner repo message o.treeSha [o.refSha],
           GhCall.patchRef owner repo branch o.newCommitSha] := by
  intro owner repo branch message fs token o ho hr hb hm hok
  have htrace : (githubCommitHandler owner repo branch message (some fs)
      (some token) o).2 =
      GhCall.getRef owner repo branch ::
      GhCall.getCommit owner repo o.refSha ::
      (((fs.filter fun f => f.action ≠ "delete").map fun f =>
          GhCall.createBlob owner repo f.content) ++
        [GhCall.createTree owner repo o.commitTreeSha
          ((fs.filter fun f => f.action ≠ "delete").map fun f =>
            { path := stripLeadingSlash f.path, mode := "100644",
              entryType := "blob", sha := o.blobSha f.content }),
         GhCall.createCommit owner repo message o.treeSha [o.refSha],
         GhCall.patchRef owner repo branch o.newCommitSha]) := by
    simp [githubCommitHandler, ho, hr, hb, hm, hok]
  refine ⟨htrace, ?_⟩
  rw [htrace]
  simp only [List.filter_cons, List.filter_append]
  rw [filter_isWrite_blobs]
  simp [GhCall.isWrite]

/-- Witness for C3 at a concrete request: one created file and one deleted
file; the deleted file gets no blob and no tree entry. -/
theorem c3_github_commit_sequence_witness :
    (githubCommitHandler "me" "proj" "main" "update"
      (some [⟨"/a.ts", "create", "A"⟩, ⟨"b.ts", "delete", ""⟩])
      (some "tok")
      ⟨true, "c0", "t0", (fun c => "blob-" ++ c), "t1", "c1", true⟩).2 =
      [GhCall.getRef "me" "proj" "main",
       GhCall.getCommit "me" "proj" "c0",
       GhCall.createBlob "me" "proj" "A",
       GhCall.createTree "me" "proj" "t0"
         [{ path := "a.ts", mode := "100644", entryType := "blob",
            sha := "blob-A" }],
       GhCall.createCommit "me" "proj" "update" "t1" ["c0"],
       GhCall.patchRef "me" "proj" "main" "c1"] := by
  rw [(c3_github_commit_sequence "me" "proj" "main" "update"
    [⟨"/a.ts", "create", "A"⟩, ⟨"b.ts", "delete", ""⟩] "tok"
    ⟨true, "c0", "t0", (fun c => "blob-" ++ c), "t1", "c1", true⟩
    (by decide) (by decide) (by decide) (by decide) rfl).1]
  decide

/-- C8: a wrong secret gets 401 and a missing userId gets 400, in both cases
with no database write; otherwise the handler performs exactly one upsert
keyed by the userId, whose update clause carries only fields present in the
payload (absent fields stay unchanged) and whose create clause defaults tier
to free and status to active. -/
theorem c8_stripe_webhook_single_upsert :
    ∀ (header envSecret : Option String) (b : WebhookBody),
      (header ≠ envSecret →
        stripeSubscriptionWebhook header envSecret b =
          (WebhookResp.unauthorized, [])) ∧
      (header = envSecret → (b.userId = none ∨ b.userId = some "") →
        stripeSubscriptionWebhook header envSecret b =
          (WebhookResp.badRequest, [])) ∧
      (∀ uid, header = envSecret → b.userId = some uid → uid ≠ "" →
        stripeSubscriptionWebhook header envSecret b =
          (WebhookResp.ok,
            [DbOp.upsert uid (webhookUpdateFields b) (webhookCreateRow uid b)])) ∧
      ((webhookUpdateFields b).tier ≠ none → b.tier ≠ none) ∧
      ((webhookUpdateFields b).status ≠ none → b.status ≠ none) ∧
      ((webhookUpdateFields b).stripeCustomerId ≠ none → b.stripeCustomerId ≠ none) ∧
      ((webhookUpdateFields b).stripeSubscriptionId ≠ none → b.stripeSubscriptionId ≠ none) ∧
      ((webhookUpdateFields b).cancelAtPeriodEnd ≠ none → b.cancelAtPeriodEnd ≠ none) ∧
      (b.tier = none → ∀ uid, (webhookCreateRow uid b).tier = "free") ∧
      (b.status = none → ∀ uid, (webhookCreateRow uid b).status = "active") := by
  intro header envSecret b
  refine ⟨?_, ?_, ?_, ?_, ?_, ?_, ?_, ?_, ?_, ?_⟩
  · intro h; simp [stripeSubscriptionWebhook, h]
  · rintro rfl (h | h) <;> simp [stripeSubscriptionWebhook, h]
  · rintro uid rfl huid hne
    simp [stripeSubscriptionWebhook, huid, hne]
  · simp only [webhookUpdateFields]
    intro h hn
    rw [hn] at h
    simp [truthyStr] at h
  · simp only [webhookUpdateFields]
    intro h hn
    rw [hn] at h
    simp [truthyStr] at h
  · simp only [webhookUpdateFields]
    intro h hn
    rw [hn] at h
    simp [truthyStr] at h
  · exact fun h => h
  · exact fun h => h
  · intro h uid; simp [webhookCreateRow, h]
  · intro h uid; simp [webhookCreateRow, h]

/-- Witness for C8: a wrong secret is rejected without a write; a correct
secret with a userId performs the single upsert; with only tier supplied the
update touches only tier (plus the always-spread optional ids, here absent)
and a created row defaults status to active. -/
theorem c8_stripe_webhook_single_upsert_witness :
    stripeSubscriptionWebhook (some "bad") (some "sec")
      ⟨some "u1", some "pro", none, none, none, none⟩ =
      (WebhookResp.unauthorized, []) ∧
    stripeSubscriptionWebhook (some "sec") (some "sec")
      ⟨none, some "pro", none, none, none, none⟩ =
      (WebhookResp.badRequest, []) ∧
    stripeSubscriptionWebhook (some "sec") (some "sec")
      ⟨some "u1", some "pro", none, none, none, none⟩ =
      (WebhookResp.ok,
        [DbOp.upsert "u1" ⟨some "pro", none, none, none, none⟩
          ⟨"u1", "pro", "active", none, none⟩]) := by
  refine ⟨?_, ?_, ?_⟩
  · exact (c8_stripe_webhook_single_upsert (some "bad") (some "sec")
      ⟨some "u1", some "pro", none, none, none, none⟩).1 (by decide)
  · exact (c8_stripe_webhook_single_upsert (some "sec") (some "sec")
      ⟨none, some "pro", none, none, none, none⟩).2.1 rfl (Or.inl rfl)
  · rw [(c8_stripe_webhook_single_upsert (some "sec") (some "sec")
      ⟨some "u1", some "pro", none, none, none, none⟩).2.2.1 "u1" rfl rfl
      (by decide)]
    decide

end Poolside

